import Mathlib

/-!
Verification of the Mission-Design chat core: a shallow embedding of the
source files (streamlit_chatbot.py, database_manager.py, auth_manager.py)
together with theorems settling the specification claims about them.

Conventions of the embedding:
* Python dictionaries with a fixed key set become structures; a key read with
  a default (dict.get) becomes an Option field read with getD.
* Relevance scores are Python floats used only through comparison and
  3-decimal printing; they are embedded as rationals, on which comparison
  agrees with float comparison for the values that occur.
* Fallible calls (database writes, the external query engine) are embedded as
  functions returning Except; an uncaught Python exception is an Except.error
  result that the caller propagates.
* Machine time (datetime.now and friends) is passed in explicitly.
-/

namespace MissionChat

/-- Metadata dictionary of one retrieval source, as produced by the external
query engine (keys title, url, mission_id, each possibly absent). -/
structure SourceMeta where
  title : Option String
  url : Option String
  mission_id : Option String
deriving DecidableEq

/-- One retrieval source returned by the query engine: a metadata dictionary,
a relevance score and an excerpt (keys possibly absent). -/
structure Source where
  metadata : SourceMeta
  score : Option Rat
  text : Option String
deriving DecidableEq

/-- Reading metadata.get(.mission_id, empty) as the dedup loop does. -/
def missionId (s : Source) : String :=
  s.metadata.mission_id.getD ""

/-- Reading source.get(.score, 0) as the dedup loop and the sort key do. -/
def scoreOf (s : Source) : Rat :=
  s.score.getD 0

/-- Dictionary lookup in the seen_missions dict of _format_sources, embedded
as first-match lookup in an association list (later inserts are consed in
front and so shadow older entries, matching dict update). -/
def lookupMission (k : String) : List (String × Source) → Option Source
  | [] => none
  | (k', v) :: rest => if k' = k then some v else lookupMission k rest

/-- Position of the kept citation in the kept list, via value equality, as
unique_sources.index(seen_missions[mission_id]) computes it. -/
def keptIdx (unique : List Source) (kept : Source) : Nat :=
  unique.findIdx (fun u => decide (u = kept))

/-- Body of the deduplication loop of _format_sources (streamlit_chatbot.py
lines 95-109): one source is examined; with a non-empty mission_id it is
either recorded and appended (first sighting) or, on a strictly higher
score, swapped into the position of the kept citation of its group;
otherwise it is appended as its own group. Returns the updated seen dict
and kept list. -/
def dedupeStep (s : Source) (seen : List (String × Source)) (unique : List Source) :
    List (String × Source) × List Source :=
  let k := missionId s
  if k ≠ "" then
    match lookupMission k seen with
    | none => ((k, s) :: seen, unique ++ [s])
    | some kept =>
      if scoreOf kept < scoreOf s then
        ((k, s) :: seen, unique.set (keptIdx unique kept) s)
      else (seen, unique)
  else (seen, unique ++ [s])

/-- Deduplication loop of _format_sources (streamlit_chatbot.py lines
95-111): repeats dedupeStep over the input, stopping as soon as 20 sources
have been kept (the break at lines 110-111). -/
def dedupeLoop : List Source → List (String × Source) → List Source → List Source
  | [], _, unique => unique
  | s :: rest, seen, unique =>
    let next := dedupeStep s seen unique
    if 20 ≤ next.2.length then next.2 else dedupeLoop rest next.1 next.2

/-- The deduplication pass of _format_sources started on empty state. -/
def dedupePass (sources : List Source) : List Source :=
  dedupeLoop sources [] []

/-- Stable insertion into a list sorted by score descending: the inserted
element goes in front of the first element whose score does not exceed it,
so that elements it is inserted among (which come later in the original
list) stay behind it on ties. -/
def insertByScore (s : Source) : List Source → List Source
  | [] => [s]
  | t :: ts => if scoreOf t ≤ scoreOf s then s :: t :: ts else t :: insertByScore s ts

/-- Embedding of unique_sources.sort(score, reverse), Python list.sort being
a stable sort: a stable insertion sort by score descending, which produces
the same list as any stable descending sort. -/
def sortByScoreDesc : List Source → List Source
  | [] => []
  | x :: xs => insertByScore x (sortByScoreDesc xs)

/-- The list-shaping part of _format_sources (the Source Ranker of the spec):
the deduplication pass followed by the stable sort by score descending. -/
def rank_and_dedupe (sources : List Source) : List Source :=
  sortByScoreDesc (dedupePass sources)

/-- Three-decimal rendering of a relevance score, standing in for Python
float formatting with .3f; ties of the binary floats are outside the model
and rounding is half-up on the rational stand-in. -/
def fmt3 (q : Rat) : String :=
  let n : Int := (q * 1000 + 1/2).floor
  let sign := if n < 0 then "-" else ""
  let m := n.natAbs
  let frac := m % 1000
  let fs := toString frac
  let fs := if frac < 10 then "00" ++ fs else if frac < 100 then "0" ++ fs else fs
  sign ++ toString (m / 1000) ++ "." ++ fs

/-- One numbered line of the source list rendering (streamlit_chatbot.py
lines 117-133): title default, eoPortal suffix removal, scheme prefixing of
a bare url, markdown link when a url is present. -/
def sourceLine (i : Nat) (s : Source) : String :=
  let title0 := s.metadata.title.getD "Unknown Mission"
  let title :=
    if title0 ≠ "" ∧ (title0.splitOn " - eoPortal").length ≠ 1 then
      title0.replace " - eoPortal" ""
    else title0
  let url0 := s.metadata.url.getD ""
  if url0 ≠ "" then
    let url := if url0.startsWith "http" then url0 else "https://" ++ url0
    "\n" ++ toString i ++ ". [" ++ title ++ "](" ++ url ++ ") (relevance: "
      ++ fmt3 (scoreOf s) ++ ")"
  else
    "\n" ++ toString i ++ ". **" ++ title ++ "** (relevance: "
      ++ fmt3 (scoreOf s) ++ ")"

/-- Renders the ranked sources with 1-based enumeration. -/
def renderFrom (i : Nat) : List Source → String
  | [] => ""
  | s :: rest => sourceLine i s ++ renderFrom (i + 1) rest

/-- Embedding of _format_sources (streamlit_chatbot.py lines 86-135): empty
input gives the empty string, otherwise the header followed by the rendering
of the ranked and deduplicated sources. -/
def format_sources (sources : List Source) : String :=
  if sources.isEmpty then ""
  else "\n\n**Sources:**" ++ renderFrom 1 (rank_and_dedupe sources)

/-- Embedding of AuthManager.validate_password (auth_manager.py lines
35-45): length 8, then the regex searches for an uppercase letter, a
lowercase letter and a digit, in this order, returning at the first
violation. The Python regexes [A-Z], [a-z] are the ASCII classes; the digit
class is modelled by its ASCII part. -/
def validate_password (password : String) : Bool × String :=
  if password.length < 8 then
    (false, "Password must be at least 8 characters long")
  else if ¬ password.data.any Char.isUpper then
    (false, "Password must contain at least one uppercase letter")
  else if ¬ password.data.any Char.isLower then
    (false, "Password must contain at least one lowercase letter")
  else if ¬ password.data.any Char.isDigit then
    (false, "Password must contain at least one number")
  else
    (true, "Password is valid")

/-- Row of the users table (database_manager.py lines 21-31). -/
structure UserRec where
  id : Nat
  username : String
  email : String
  password_hash : String
  last_login : Option Nat
  is_active : Bool
deriving DecidableEq

/-- Replaces the first element satisfying a predicate, leaving the rest of
the list unchanged; stands in for mutating the ORM row returned by
query.filter(...).first() and committing. -/
def updFirst (p : α → Bool) (f : α → α) : List α → List α
  | [] => []
  | x :: xs => if p x then f x :: xs else x :: updFirst p f xs

/-- Embedding of DatabaseManager.authenticate_user (database_manager.py
lines 96-121): finds the first user whose username or email equals the
identifier, and only if that user is active and the password verifies
against its hash updates last_login and returns the user view. The bcrypt
verifier is passed in as checkpw. Returns the view (none on failure) and
the users table after the call. -/
def authenticate_user (checkpw : String → String → Bool) (db : List UserRec)
    (username_or_email pw : String) (now : Nat) : Option UserRec × List UserRec :=
  match db.find? (fun u => decide (u.username = username_or_email)
      || decide (u.email = username_or_email)) with
  | some u =>
    if u.is_active then
      if checkpw pw u.password_hash then
        (some { u with last_login := some now },
         updFirst (fun v => decide (v.username = username_or_email)
             || decide (v.email = username_or_email))
           (fun v => { v with last_login := some now }) db)
      else (none, db)
    else (none, db)
  | none => (none, db)

/-- Row of the chat_history table (database_manager.py lines 33-43); user_id
is nullable for guest turns, sources is a nullable JSON string. -/
structure ChatRec where
  id : Nat
  user_id : Option Int
  session_id : String
  message_type : String
  message : String
  sources : Option String
  created_at : Nat
deriving DecidableEq

/-- Python truthiness of the Optional[int] owner argument in
delete_session_history: None and 0 are falsy, every other int is truthy. -/
def truthyUid : Option Int → Bool
  | none => false
  | some n => decide (n ≠ 0)

/-- Embedding of DatabaseManager.delete_session_history (database_manager.py
lines 228-243): deletes the rows of the given session, additionally
filtered by owner only when the user_id argument is truthy. Returns the
rows remaining in the table. -/
def delete_session_history (db : List ChatRec) (session_id : String)
    (user_id : Option Int) : List ChatRec :=
  if truthyUid user_id then
    db.filter (fun c => !(decide (c.session_id = session_id) && decide (c.user_id = user_id)))
  else
    db.filter (fun c => !(decide (c.session_id = session_id)))

/-- Result dictionary of the external query engine call, per the boundary
schema and the fallback literal built in _process_query. -/
structure QueryResult where
  response : String
  sources : List Source
  response_time : Rat
deriving DecidableEq

/-- Embedding of StreamlitSpaceMissionChatbot._process_query
(streamlit_chatbot.py lines 137-157): the engine call may raise; on success
the query counter increments and the result is returned, on any failure the
substitute reply with the error text, empty sources and zero response time
is returned and the counter is left unchanged. -/
def process_query (engine : String → Except String QueryResult)
    (query_count : Nat) (query : String) : QueryResult × Nat :=
  match engine query with
  | .ok result => (result, query_count + 1)
  | .error e =>
    ({ response := "Error processing query: " ++ e, sources := [], response_time := 0 },
     query_count)

/-- One entry of st.session_state.messages. -/
structure ChatMsg where
  role : String
  content : String
  sources : List Source
  timestamp : String
deriving DecidableEq

/-- The slice of st.session_state that the chat turn path touches. -/
structure ChatState where
  messages : List ChatMsg
  query_count : Nat
  session_id : String
  current_user : Option Nat
  show_sources : Bool
deriving DecidableEq

/-- Embedding of the query-handling path of render_chat_interface
(streamlit_chatbot.py lines 403-448) together with _save_message_to_db
(lines 62-71): append the user message, save it for logged-in users (no
handler around the save, so a storage failure propagates and ends the
turn), display the user message, process the query, build the response text
(sources appended when enabled and nonempty), display it, append and save
the assistant message. Returns the texts written to the interface so far
and either the resulting state or the propagated storage error. -/
def chatTurn
    (save : String → String → String → Option (List Source) → Option Nat → Except String Unit)
    (engine : String → Except String QueryResult) (now : String)
    (st : ChatState) (query : String) : List String × Except String ChatState :=
  let st1 : ChatState := { st with messages := st.messages ++ [⟨"user", query, [], now⟩] }
  let savedUser : Except String Unit :=
    match st.current_user with
    | some uid => save st.session_id "user" query none (some uid)
    | none => .ok ()
  match savedUser with
  | .error e => ([], .error e)
  | .ok _ =>
    let displayed1 := [query]
    let rq := process_query engine st.query_count query
    let result := rq.1
    let withSources := st.show_sources && !result.sources.isEmpty
    let response_text :=
      result.response ++ (if withSources then format_sources result.sources else "")
    let sources_data := if withSources then result.sources else []
    let displayed2 := displayed1 ++ [response_text]
    let st2 : ChatState :=
      { st1 with
        query_count := rq.2
        messages := st1.messages ++ [⟨"assistant", response_text, sources_data, now⟩] }
    let savedAssistant : Except String Unit :=
      match st.current_user with
      | some uid => save st.session_id "assistant" response_text (some sources_data) (some uid)
      | none => .ok ()
    match savedAssistant with
    | .error e => (displayed2, .error e)
    | .ok _ => (displayed2, .ok st2)

/-- Caller identity class of the rate limiter (spec section 4.2). -/
inductive CallerClass
  | guest
  | registered
deriving DecidableEq

/-- Modelled from the spec: ceiling of the fixed-window rate limiter, 10 for
guests and 30 for registered callers (spec section 4.2); no rate limiter
appears in the files under src, whose _process_query only increments a
display counter, so the component is modelled from the specification text. -/
def ceiling : CallerClass → Nat
  | .guest => 10
  | .registered => 30

/-- Modelled from the spec: the per-caller fixed window state, a window
start timestamp and a counter (spec section 3, RateWindow). -/
structure RateWindow where
  window_start : Nat
  count : Nat
deriving DecidableEq

/-- Outcome of one allow call: whether the call is allowed, and the
remaining cooldown reported on rejection. -/
structure AllowOutcome where
  allowed : Bool
  cooldown : Option Nat
deriving DecidableEq

/-- Modelled from the spec: allow(caller_class, now) of the fixed-window
rate limiter (spec section 4.2). The window resets when now exceeds the
window start by more than 60, resetting the counter to zero; the ceiling is
checked before incrementing; a rejected call reports the remaining cooldown
60 - (now - window_start). -/
def allow (c : CallerClass) (now : Nat) (w : RateWindow) : AllowOutcome × RateWindow :=
  let w1 := if 60 < now - w.window_start then { window_start := now, count := 0 } else w
  if ceiling c ≤ w1.count then
    ({ allowed := false, cooldown := some (60 - (now - w1.window_start)) }, w1)
  else
    ({ allowed := true, cooldown := none }, { w1 with count := w1.count + 1 })

/-- Runs allow over a list of call times, collecting the outcomes. -/
def runAllow (c : CallerClass) : List Nat → RateWindow → List AllowOutcome × RateWindow
  | [], w => ([], w)
  | t :: ts, w =>
    let ow := allow c t w
    let rest := runAllow c ts ow.2
    (ow.1 :: rest.1, rest.2)

/-- Winner of a deduplication group per the spec wording of section 4.3: a
strictly higher relevance score replaces the citation kept so far, so the
first citation attaining the maximal score of the group wins. -/
def winner (b : Source) : List Source → Source
  | [] => b
  | s :: rest => winner (if scoreOf b < scoreOf s then s else b) rest

/-- Structural worker for the specification description of the
deduplication pass: the fuel bounds the recursion depth and is irrelevant
as long as it covers the list length. -/
def dedupeSpecGo : Nat → List Source → List Source
  | _, [] => []
  | 0, _ :: _ => []
  | fuel + 1, s :: rest =>
    if missionId s = "" then s :: dedupeSpecGo fuel rest
    else
      winner s (rest.filter (fun t => decide (missionId t = missionId s)))
        :: dedupeSpecGo fuel (rest.filter (fun t => decide (missionId t ≠ missionId s)))

/-- The deduplication pass as the specification describes it (section 4.3):
the grouping key is the mission identifier when present, sources lacking one
are kept as their own group, the winning citation of each group replaces the
kept one in place, preserving the first insertion position of the group. -/
def dedupeSpec (l : List Source) : List Source :=
  dedupeSpecGo l.length l

theorem dedupeSpecGo_fuel (fuel : Nat) :
    ∀ (fuel' : Nat) (l : List Source), l.length ≤ fuel → l.length ≤ fuel' →
      dedupeSpecGo fuel l = dedupeSpecGo fuel' l := by
  induction fuel with
  | zero =>
    intro fuel' l hl _
    have : l = [] := List.length_eq_zero.mp (Nat.le_zero.mp hl)
    subst this
    cases fuel' <;> rfl
  | succ fuel ih =>
    intro fuel' l hl hl'
    cases l with
    | nil => cases fuel' <;> rfl
    | cons s rest =>
      cases fuel' with
      | zero => simp at hl'
      | succ fuel' =>
        simp only [List.length_cons, Nat.succ_le_succ_iff] at hl hl'
        by_cases hk : missionId s = ""
        · simp only [dedupeSpecGo, if_pos hk]
          rw [ih fuel' rest hl hl']
        · simp only [dedupeSpecGo, if_neg hk]
          rw [ih fuel' (rest.filter (fun t => decide (missionId t ≠ missionId s)))
            (le_trans (List.length_filter_le _ _) hl)
            (le_trans (List.length_filter_le _ _) hl')]

theorem dedupeSpec_nil : dedupeSpec [] = [] := rfl

/-- The Source Ranker as the specification describes it (section 4.3):
rank_and_dedupe(sources, max_results) deduplicates, then sorts by score
descending keeping ties stable, and only then truncates to the
caller-supplied max_results. -/
def rank_and_dedupe_spec (sources : List Source) (max_results : Nat) : List Source :=
  (sortByScoreDesc (dedupeSpec sources)).take max_results

/-- The deduplication loop of _format_sources without its early stop at 20
kept sources; used to relate the loop to the specification description on
inputs small enough that the stop never cuts work short. -/
def dedupeNB : List Source → List (String × Source) → List Source → List Source
  | [], _, unique => unique
  | s :: rest, seen, unique =>
    let next := dedupeStep s seen unique
    dedupeNB rest next.1 next.2

/-- Descending order by score, the order the sort establishes. -/
def ScoreSorted (l : List Source) : Prop :=
  l.Pairwise (fun a b => scoreOf b ≤ scoreOf a)

theorem insertByScore_perm (s : Source) : ∀ l : List Source, List.Perm (insertByScore s l) (s :: l)
  | [] => List.Perm.refl _
  | t :: ts => by
    by_cases h : scoreOf t ≤ scoreOf s
    · simp [insertByScore, h]
    · simp only [insertByScore, if_neg h]
      exact ((insertByScore_perm s ts).cons t).trans (List.Perm.swap s t ts)

theorem sortByScoreDesc_perm : ∀ l : List Source, List.Perm (sortByScoreDesc l) l
  | [] => List.Perm.refl _
  | x :: xs =>
    (insertByScore_perm x (sortByScoreDesc xs)).trans ((sortByScoreDesc_perm xs).cons x)

theorem insertByScore_sorted (s : Source) :
    ∀ l : List Source, ScoreSorted l → ScoreSorted (insertByScore s l)
  | [], _ => List.pairwise_singleton _ _
  | t :: ts, h => by
    rcases List.pairwise_cons.mp h with ⟨ht, hts⟩
    by_cases hc : scoreOf t ≤ scoreOf s
    · simp only [insertByScore, if_pos hc]
      refine List.pairwise_cons.mpr ⟨?_, h⟩
      intro b hb
      rcases List.mem_cons.mp hb with rfl | hb
      · exact hc
      · exact le_trans (ht b hb) hc
    · simp only [insertByScore, if_neg hc]
      refine List.pairwise_cons.mpr ⟨?_, insertByScore_sorted s ts hts⟩
      intro b hb
      have hb' := (insertByScore_perm s ts).mem_iff.mp hb
      rcases List.mem_cons.mp hb' with rfl | hb'
      · exact le_of_lt (lt_of_not_le hc)
      · exact ht b hb'

theorem sortByScoreDesc_sorted : ∀ l : List Source, ScoreSorted (sortByScoreDesc l)
  | [] => List.Pairwise.nil
  | x :: xs => insertByScore_sorted x (sortByScoreDesc xs) (sortByScoreDesc_sorted xs)

theorem sortByScoreDesc_eq_of_sorted : ∀ l : List Source, ScoreSorted l → sortByScoreDesc l = l
  | [], _ => rfl
  | x :: xs, h => by
    rcases List.pairwise_cons.mp h with ⟨hx, hxs⟩
    have ih := sortByScoreDesc_eq_of_sorted xs hxs
    simp only [sortByScoreDesc, ih]
    cases xs with
    | nil => rfl
    | cons y ys => simp only [insertByScore, if_pos (hx y (List.mem_cons_self y ys))]

theorem sortByScoreDesc_idem (l : List Source) :
    sortByScoreDesc (sortByScoreDesc l) = sortByScoreDesc l :=
  sortByScoreDesc_eq_of_sorted _ (sortByScoreDesc_sorted l)

theorem sortByScoreDesc_length (l : List Source) :
    (sortByScoreDesc l).length = l.length :=
  (sortByScoreDesc_perm l).length_eq

/-- Two kept sources never share a non-empty mission identifier. -/
def PDiff (a b : Source) : Prop :=
  missionId a = "" ∨ missionId b = "" ∨ missionId a ≠ missionId b

/-- The kept list carries pairwise distinct non-empty mission identifiers. -/
def IdOk (l : List Source) : Prop :=
  l.Pairwise PDiff

theorem pdiff_symm : ∀ {a b : Source}, PDiff a b → PDiff b a := by
  intro a b h
  rcases h with h | h | h
  · exact Or.inr (Or.inl h)
  · exact Or.inl h
  · exact Or.inr (Or.inr fun hc => h hc.symm)

/-- State invariant of the deduplication loop: the seen dict holds exactly
the kept citations of the groups with a non-empty mission identifier. -/
def SeenInv (seen : List (String × Source)) (unique : List Source) : Prop :=
  (∀ u ∈ unique, missionId u ≠ "" → lookupMission (missionId u) seen = some u) ∧
  (∀ k v, lookupMission k seen = some v → v ∈ unique ∧ missionId v = k ∧ k ≠ "")

theorem seenInv_nil : SeenInv [] [] := by
  constructor
  · intro u hu
    exact absurd hu (List.not_mem_nil u)
  · intro k v hv
    simp [lookupMission] at hv

theorem idok_unique_pos {l : List Source} (h : IdOk l) {i j : Nat}
    (hi : i < l.length) (hj : j < l.length)
    (hne : missionId (l.get ⟨i, hi⟩) ≠ "")
    (heq : missionId (l.get ⟨i, hi⟩) = missionId (l.get ⟨j, hj⟩)) : i = j := by
  rcases Nat.lt_trichotomy i j with hij | hij | hij
  · have hp := List.pairwise_iff_getElem.mp h i j hi hj hij
    simp only [List.get_eq_getElem] at hne heq
    rcases hp with hp | hp | hp
    · exact absurd hp hne
    · exact absurd (heq ▸ hp) hne
    · exact absurd heq hp
  · exact hij
  · have hp := List.pairwise_iff_getElem.mp h j i hj hi hij
    simp only [List.get_eq_getElem] at hne heq
    rcases hp with hp | hp | hp
    · exact absurd (heq ▸ hp) hne
    · exact absurd hp hne
    · exact absurd heq.symm hp

theorem dedupeStep_noid {s : Source} (seen : List (String × Source)) (unique : List Source)
    (hk : missionId s = "") : dedupeStep s seen unique = (seen, unique ++ [s]) := by
  simp [dedupeStep, hk]

theorem dedupeStep_new {s : Source} {seen : List (String × Source)} (unique : List Source)
    (hk : missionId s ≠ "") (hlk : lookupMission (missionId s) seen = none) :
    dedupeStep s seen unique = ((missionId s, s) :: seen, unique ++ [s]) := by
  simp [dedupeStep, hk, hlk]

theorem dedupeStep_replace {s kept : Source} {seen : List (String × Source)}
    (unique : List Source) (hk : missionId s ≠ "")
    (hlk : lookupMission (missionId s) seen = some kept)
    (hsc : scoreOf kept < scoreOf s) :
    dedupeStep s seen unique
      = ((missionId s, s) :: seen, unique.set (keptIdx unique kept) s) := by
  simp [dedupeStep, hk, hlk, hsc]

theorem dedupeStep_skip {s kept : Source} {seen : List (String × Source)}
    (unique : List Source) (hk : missionId s ≠ "")
    (hlk : lookupMission (missionId s) seen = some kept)
    (hsc : ¬ scoreOf kept < scoreOf s) :
    dedupeStep s seen unique = (seen, unique) := by
  simp [dedupeStep, hk, hlk, hsc]

theorem dedupeStep_len (s : Source) (seen : List (String × Source)) (unique : List Source) :
    (dedupeStep s seen unique).2.length ≤ unique.length + 1 := by
  by_cases hk : missionId s = ""
  · simp [dedupeStep_noid seen unique hk]
  · cases hlk : lookupMission (missionId s) seen with
    | none => simp [dedupeStep_new unique hk hlk]
    | some kept =>
      by_cases hsc : scoreOf kept < scoreOf s
      · simp [dedupeStep_replace unique hk hlk hsc]
      · simp [dedupeStep_skip unique hk hlk hsc]

theorem keptIdx_lt {unique : List Source} {kept : Source} (h : kept ∈ unique) :
    keptIdx unique kept < unique.length :=
  List.findIdx_lt_length_of_exists ⟨kept, h, by simp⟩

theorem keptIdx_get {unique : List Source} {kept : Source} (h : kept ∈ unique) :
    unique.get ⟨keptIdx unique kept, keptIdx_lt h⟩ = kept := by
  have hlt : unique.findIdx (fun u => decide (u = kept)) < unique.length := keptIdx_lt h
  have hp := List.findIdx_getElem (w := hlt)
  simp only [keptIdx, List.get_eq_getElem]
  exact of_decide_eq_true hp

theorem kept_pos_unique {seen : List (String × Source)} {unique : List Source}
    (h : SeenInv seen unique) (hok : IdOk unique) {s kept : Source}
    (hk : missionId s ≠ "") (hlk : lookupMission (missionId s) seen = some kept) :
    ∀ j (hj : j < unique.length), missionId (unique.get ⟨j, hj⟩) = missionId s →
      j = keptIdx unique kept := by
  intro j hj hmj
  obtain ⟨hkm, hkid, -⟩ := h.2 _ _ hlk
  have hlt := keptIdx_lt hkm
  have hgi := keptIdx_get hkm
  apply idok_unique_pos hok hj hlt
  · rw [hmj]
    exact hk
  · rw [hmj, hgi, hkid]

theorem replace_state {seen : List (String × Source)} {unique : List Source}
    (h : SeenInv seen unique) (hok : IdOk unique) {s kept : Source}
    (hk : missionId s ≠ "") (hlk : lookupMission (missionId s) seen = some kept) :
    SeenInv ((missionId s, s) :: seen) (unique.set (keptIdx unique kept) s)
      ∧ IdOk (unique.set (keptIdx unique kept) s) := by
  obtain ⟨inv1, inv2⟩ := h
  obtain ⟨hkm, hkid, -⟩ := inv2 _ _ hlk
  have hlt := keptIdx_lt hkm
  have hgi := keptIdx_get hkm
  have hpos := kept_pos_unique ⟨inv1, inv2⟩ hok hk hlk
  refine ⟨⟨?_, ?_⟩, ?_⟩
  · intro u hu hmu
    rcases List.mem_iff_getElem.mp hu with ⟨j, hj, hgj⟩
    rw [List.length_set] at hj
    by_cases hji : j = keptIdx unique kept
    · subst hji
      have hus : u = s := by
        rw [← hgj]
        exact List.getElem_set_self (by simpa using hj)
      subst hus
      simp [lookupMission]
    · have hju : (unique.set (keptIdx unique kept) s)[j] = unique[j] :=
        List.getElem_set_ne (fun hc => hji hc.symm) (by simpa using hj)
      have hu' : u = unique[j] := by rw [← hgj, hju]
      have hneq : missionId u ≠ missionId s := by
        intro hc
        apply hji
        apply hpos j hj
        simp only [List.get_eq_getElem, ← hu']
        exact hc
      show (if missionId s = missionId u then some s
        else lookupMission (missionId u) seen) = some u
      rw [if_neg (fun hc => hneq hc.symm)]
      exact inv1 u (hu' ▸ List.getElem_mem hj) hmu
  · intro k v hv
    have hv' : (if missionId s = k then some s else lookupMission k seen) = some v := hv
    by_cases hks : missionId s = k
    · rw [if_pos hks] at hv'
      have hvs : v = s := by injection hv' with h1; exact h1.symm
      subst hvs
      refine ⟨?_, hks, hks ▸ hk⟩
      exact List.mem_iff_getElem.mpr
        ⟨keptIdx unique kept, by simpa using hlt, List.getElem_set_self (by simpa using hlt)⟩
    · rw [if_neg hks] at hv'
      obtain ⟨hvm, hvk, hkne⟩ := inv2 k v hv'
      refine ⟨?_, hvk, hkne⟩
      rcases List.mem_iff_getElem.mp hvm with ⟨j, hj, hgj⟩
      have hji : j ≠ keptIdx unique kept := by
        intro hc
        apply hks
        subst hc
        have hvkept : v = kept := by
          rw [← hgj]
          simpa [List.get_eq_getElem] using hgi
        rw [← hvk, hvkept, hkid]
      exact List.mem_iff_getElem.mpr
        ⟨j, by simpa using hj, by rw [List.getElem_set_ne (fun hc => hji hc.symm)]; exact hgj⟩
  · apply List.pairwise_iff_getElem.mpr
    intro a b ha hb hab
    rw [List.length_set] at ha hb
    simp only [List.getElem_set]
    by_cases haI : keptIdx unique kept = a
    · have hbI : ¬ keptIdx unique kept = b := fun hc => by omega
      rw [if_pos haI, if_neg hbI]
      exact Or.inr (Or.inr fun hc =>
        hbI ((hpos b hb (by simpa using hc.symm)).symm))
    · by_cases hbI : keptIdx unique kept = b
      · rw [if_neg haI, if_pos hbI]
        exact Or.inr (Or.inr fun hc =>
          haI ((hpos a ha (by simpa using hc)).symm))
      · rw [if_neg haI, if_neg hbI]
        exact List.pairwise_iff_getElem.mp hok a b ha hb hab

theorem append_state_noid {seen : List (String × Source)} {unique : List Source}
    (h : SeenInv seen unique) (hok : IdOk unique) {s : Source}
    (hk : missionId s = "") :
    SeenInv seen (unique ++ [s]) ∧ IdOk (unique ++ [s]) := by
  obtain ⟨inv1, inv2⟩ := h
  refine ⟨⟨?_, ?_⟩, ?_⟩
  · intro u hu hmu
    rcases List.mem_append.mp hu with hu | hu
    · exact inv1 u hu hmu
    · have := List.mem_singleton.mp hu
      subst this
      exact absurd hk hmu
  · intro k v hv
    obtain ⟨hvm, hvk, hkne⟩ := inv2 k v hv
    exact ⟨List.mem_append_left _ hvm, hvk, hkne⟩
  · apply List.pairwise_append.mpr
    refine ⟨hok, List.pairwise_singleton _ _, ?_⟩
    intro a _ b hb
    have := List.mem_singleton.mp hb
    subst this
    exact Or.inr (Or.inl hk)

theorem append_state_new {seen : List (String × Source)} {unique : List Source}
    (h : SeenInv seen unique) (hok : IdOk unique) {s : Source}
    (hk : missionId s ≠ "") (hlk : lookupMission (missionId s) seen = none) :
    SeenInv ((missionId s, s) :: seen) (unique ++ [s]) ∧ IdOk (unique ++ [s]) := by
  obtain ⟨inv1, inv2⟩ := h
  have hfresh : ∀ u ∈ unique, missionId u ≠ missionId s := by
    intro u hu hc
    have h1 := inv1 u hu (by rw [hc]; exact hk)
    rw [hc, hlk] at h1
    exact Option.noConfusion h1
  refine ⟨⟨?_, ?_⟩, ?_⟩
  · intro u hu hmu
    rcases List.mem_append.mp hu with hu | hu
    · show (if missionId s = missionId u then some s
        else lookupMission (missionId u) seen) = some u
      rw [if_neg (fun hc => hfresh u hu hc.symm)]
      exact inv1 u hu hmu
    · have := List.mem_singleton.mp hu
      subst this
      simp [lookupMission]
  · intro k v hv
    have hv' : (if missionId s = k then some s else lookupMission k seen) = some v := hv
    by_cases hks : missionId s = k
    · rw [if_pos hks] at hv'
      have hvs : v = s := by injection hv' with h1; exact h1.symm
      refine ⟨?_, ?_, hks ▸ hk⟩
      · rw [hvs]
        exact List.mem_append_right _ (List.mem_singleton_self s)
      · rw [hvs]
        exact hks
    · rw [if_neg hks] at hv'
      obtain ⟨hvm, hvk, hkne⟩ := inv2 k v hv'
      exact ⟨List.mem_append_left _ hvm, hvk, hkne⟩
  · apply List.pairwise_append.mpr
    refine ⟨hok, List.pairwise_singleton _ _, ?_⟩
    intro a ha b hb
    have := List.mem_singleton.mp hb
    subst this
    exact Or.inr (Or.inr (hfresh a ha))

theorem dedupeStep_state (s : Source) {seen : List (String × Source)}
    {unique : List Source} (h : SeenInv seen unique) (hok : IdOk unique) :
    SeenInv (dedupeStep s seen unique).1 (dedupeStep s seen unique).2
      ∧ IdOk (dedupeStep s seen unique).2 := by
  by_cases hk : missionId s = ""
  · rw [dedupeStep_noid seen unique hk]
    exact append_state_noid h hok hk
  · cases hlk : lookupMission (missionId s) seen with
    | none =>
      rw [dedupeStep_new unique hk hlk]
      exact append_state_new h hok hk hlk
    | some kept =>
      by_cases hsc : scoreOf kept < scoreOf s
      · rw [dedupeStep_replace unique hk hlk hsc]
        exact replace_state h hok hk hlk
      · rw [dedupeStep_skip unique hk hlk hsc]
        exact ⟨h, hok⟩

theorem dedupeLoop_idok (l : List Source) :
    ∀ (seen : List (String × Source)) (unique : List Source),
      SeenInv seen unique → IdOk unique → IdOk (dedupeLoop l seen unique) := by
  induction l with
  | nil =>
    intro seen unique _ hok
    simpa [dedupeLoop] using hok
  | cons s rest ih =>
    intro seen unique h hok
    have hst := dedupeStep_state s h hok
    simp only [dedupeLoop]
    by_cases hbr : 20 ≤ (dedupeStep s seen unique).2.length
    · rw [if_pos hbr]
      exact hst.2
    · rw [if_neg hbr]
      exact ih _ _ hst.1 hst.2

theorem dedupeLoop_len (l : List Source) :
    ∀ (seen : List (String × Source)) (unique : List Source),
      unique.length < 20 → (dedupeLoop l seen unique).length ≤ 20 := by
  induction l with
  | nil =>
    intro seen unique h
    simpa [dedupeLoop] using Nat.le_of_lt h
  | cons s rest ih =>
    intro seen unique h
    have hle := dedupeStep_len s seen unique
    simp only [dedupeLoop]
    by_cases hbr : 20 ≤ (dedupeStep s seen unique).2.length
    · rw [if_pos hbr]
      omega
    · rw [if_neg hbr]
      exact ih _ _ (by omega)

theorem dedupeLoop_eq_NB (l : List Source) :
    ∀ (seen : List (String × Source)) (unique : List Source),
      unique.length + l.length ≤ 20 → dedupeLoop l seen unique = dedupeNB l seen unique := by
  induction l with
  | nil =>
    intro seen unique _
    rfl
  | cons s rest ih =>
    intro seen unique h
    have hle := dedupeStep_len s seen unique
    simp only [dedupeLoop, dedupeNB]
    by_cases hbr : 20 ≤ (dedupeStep s seen unique).2.length
    · rw [if_pos hbr]
      have hrest : rest = [] := by
        simp only [List.length_cons] at h
        exact List.length_eq_zero.mp (by omega)
      subst hrest
      rfl
    · rw [if_neg hbr]
      apply ih
      simp only [List.length_cons] at h
      omega

theorem dedupeSpec_cons_noid (s : Source) (l : List Source) (hk : missionId s = "") :
    dedupeSpec (s :: l) = s :: dedupeSpec l := by
  show dedupeSpecGo (l.length + 1) (s :: l) = s :: dedupeSpecGo l.length l
  simp only [dedupeSpecGo, if_pos hk]

theorem dedupeSpec_cons_id (s : Source) (l : List Source) (hk : missionId s ≠ "") :
    dedupeSpec (s :: l)
      = winner s (l.filter (fun t => decide (missionId t = missionId s)))
        :: dedupeSpec (l.filter (fun t => decide (missionId t ≠ missionId s))) := by
  show dedupeSpecGo (l.length + 1) (s :: l) = _
  simp only [dedupeSpecGo, if_neg hk]
  rw [dedupeSpecGo_fuel l.length _ _ (List.length_filter_le _ _) (Nat.le_refl _)]
  rfl

theorem winner_cons (b x : Source) (l : List Source) :
    winner b (x :: l) = winner (if scoreOf b < scoreOf x then x else b) l :=
  rfl

/-- The kept citation of a group after the whole remaining input has been
walked: the future winner of the group of u among the remaining sources. -/
def futureWinner (l : List Source) (u : Source) : Source :=
  if missionId u = "" then u
  else winner u (l.filter (fun t => decide (missionId t = missionId u)))

/-- Whether a source would open a fresh group given the seen dict. -/
def freshKey (seen : List (String × Source)) (t : Source) : Bool :=
  decide (missionId t = "") || (lookupMission (missionId t) seen).isNone

theorem futureWinner_nil (u : Source) : futureWinner [] u = u := by
  by_cases h : missionId u = "" <;> simp [futureWinner, h, winner]

theorem map_futureWinner_nil (l : List Source) : l.map (futureWinner []) = l := by
  rw [List.map_congr_left (fun u _ => futureWinner_nil u)]
  exact List.map_id' l

theorem futureWinner_cons_skip {s u : Source} (l : List Source)
    (h : missionId s ≠ missionId u ∨ missionId u = "") :
    futureWinner (s :: l) u = futureWinner l u := by
  by_cases hu : missionId u = ""
  · simp [futureWinner, hu]
  · have hne : missionId s ≠ missionId u := h.resolve_right hu
    have hdec : (decide (missionId s = missionId u)) = false := by simpa using hne
    simp only [futureWinner, if_neg hu]
    rw [List.filter_cons, hdec]
    simp

theorem futureWinner_id {u : Source} (l : List Source) (hk : missionId u ≠ "") :
    futureWinner l u = winner u (l.filter (fun t => decide (missionId t = missionId u))) := by
  simp [futureWinner, hk]

theorem dedupeNB_eq_spec (l : List Source) :
    ∀ (seen : List (String × Source)) (unique : List Source),
      SeenInv seen unique → IdOk unique →
      dedupeNB l seen unique
        = unique.map (futureWinner l) ++ dedupeSpec (l.filter (freshKey seen)) := by
  induction l with
  | nil =>
    intro seen unique _ _
    show unique = unique.map (futureWinner []) ++ dedupeSpec []
    rw [map_futureWinner_nil, dedupeSpec_nil]
    simp
  | cons s rest ih =>
    intro seen unique h hok
    show dedupeNB rest (dedupeStep s seen unique).1 (dedupeStep s seen unique).2 = _
    by_cases hk : missionId s = ""
    · simp only [dedupeStep_noid seen unique hk]
      obtain ⟨hinv', hok'⟩ := append_state_noid h hok hk
      rw [ih _ _ hinv' hok']
      have hfs : freshKey seen s = true := by simp [freshKey, hk]
      rw [List.filter_cons, if_pos hfs, dedupeSpec_cons_noid _ _ hk, List.map_append]
      have hfw : futureWinner rest s = s := by simp [futureWinner, hk]
      have hmap : unique.map (futureWinner (s :: rest)) = unique.map (futureWinner rest) := by
        apply List.map_congr_left
        intro u hu
        by_cases hu0 : missionId u = ""
        · exact futureWinner_cons_skip rest (Or.inr hu0)
        · exact futureWinner_cons_skip rest (Or.inl (fun hc => hu0 (hc.symm.trans hk)))
      rw [hmap]
      simp [hfw]
    · cases hlk : lookupMission (missionId s) seen with
      | none =>
        simp only [dedupeStep_new unique hk hlk]
        obtain ⟨hinv', hok'⟩ := append_state_new h hok hk hlk
        rw [ih _ _ hinv' hok']
        have hfs : freshKey seen s = true := by simp [freshKey, hlk]
        rw [List.filter_cons, if_pos hfs, dedupeSpec_cons_id _ _ hk, List.map_append]
        have hfresh : ∀ u ∈ unique, missionId u ≠ missionId s := by
          intro u hu hc
          have h1 := h.1 u hu (by rw [hc]; exact hk)
          rw [hc, hlk] at h1
          exact Option.noConfusion h1
        have hmap : unique.map (futureWinner (s :: rest)) = unique.map (futureWinner rest) := by
          apply List.map_congr_left
          intro u hu
          exact futureWinner_cons_skip rest (Or.inl (fun hc => hfresh u hu hc.symm))
        have hhead : winner s ((rest.filter (freshKey seen)).filter
            (fun t => decide (missionId t = missionId s))) = futureWinner rest s := by
          rw [futureWinner_id rest hk, List.filter_filter]
          congr 1
          apply List.filter_congr
          intro t _
          by_cases hpe : missionId t = missionId s
          · simp [hpe, freshKey, hlk, hk]
          · simp [hpe]
        have htail : rest.filter (freshKey ((missionId s, s) :: seen))
            = (rest.filter (freshKey seen)).filter
                (fun t => decide (missionId t ≠ missionId s)) := by
          rw [List.filter_filter]
          apply List.filter_congr
          intro t _
          by_cases ht0 : missionId t = ""
          · have hts : ¬ ("" : String) = missionId s := fun hc => hk hc.symm
            simp [freshKey, ht0, hts, lookupMission, hk]
          · by_cases hts : missionId t = missionId s
            · simp [freshKey, ht0, hts, lookupMission, hk]
            · have hts2 : ¬ missionId s = missionId t := fun hc => hts hc.symm
              simp [freshKey, ht0, hts, hts2, lookupMission]
        rw [hmap, hhead, htail]
        simp
      | some kept =>
        by_cases hsc : scoreOf kept < scoreOf s
        · simp only [dedupeStep_replace unique hk hlk hsc]
          obtain ⟨hinv', hok'⟩ := replace_state h hok hk hlk
          rw [ih _ _ hinv' hok']
          obtain ⟨hkm, hkid, -⟩ := h.2 _ _ hlk
          have hlt := keptIdx_lt hkm
          have hgi := keptIdx_get hkm
          have hpos := kept_pos_unique h hok hk hlk
          have hfs : freshKey seen s = false := by simp [freshKey, hk, hlk]
          rw [List.filter_cons, if_neg (by simp [hfs])]
          have htail : rest.filter (freshKey ((missionId s, s) :: seen))
              = rest.filter (freshKey seen) := by
            apply List.filter_congr
            intro t _
            by_cases ht0 : missionId t = ""
            · simp [freshKey, ht0]
            · by_cases hts : missionId t = missionId s
              · simp [freshKey, ht0, hts, lookupMission, hlk]
              · have hts2 : ¬ missionId s = missionId t := fun hc => hts hc.symm
                simp [freshKey, ht0, hts2, lookupMission]
          have hheads : (unique.set (keptIdx unique kept) s).map (futureWinner rest)
              = unique.map (futureWinner (s :: rest)) := by
            apply List.ext_getElem
            · simp
            · intro j hj1 hj2
              simp only [List.length_map, List.length_set] at hj1 hj2
              rw [List.getElem_map, List.getElem_map, List.getElem_set]
              by_cases hji : keptIdx unique kept = j
              · subst hji
                rw [if_pos rfl]
                have hjk : unique[keptIdx unique kept] = kept := by
                  simpa [List.get_eq_getElem] using hgi
                rw [hjk]
                have hkk : missionId kept ≠ "" := by
                  rw [hkid]
                  exact hk
                rw [futureWinner_id rest hk, futureWinner_id (s :: rest) hkk]
                have hcond : missionId s = missionId kept := hkid.symm
                rw [List.filter_cons, if_pos (by simpa using hcond)]
                rw [winner_cons, if_pos hsc]
                congr 1
                apply List.filter_congr
                intro t _
                rw [hkid]
              · rw [if_neg hji]
                apply (futureWinner_cons_skip rest ?_).symm
                by_cases hu0 : missionId unique[j] = ""
                · exact Or.inr hu0
                · refine Or.inl (fun hc => hji ?_)
                  exact (hpos j hj2 (by simpa using hc.symm)).symm
          rw [htail, hheads]
        · simp only [dedupeStep_skip unique hk hlk hsc]
          rw [ih _ _ h hok]
          have hfs : freshKey seen s = false := by simp [freshKey, hk, hlk]
          rw [List.filter_cons, if_neg (by simp [hfs])]
          obtain ⟨hkm, hkid, -⟩ := h.2 _ _ hlk
          have hkk : missionId kept ≠ "" := by
            rw [hkid]
            exact hk
          have hmap : unique.map (futureWinner (s :: rest)) = unique.map (futureWinner rest) := by
            apply List.map_congr_left
            intro u hu
            by_cases hu0 : missionId u = ""
            · exact futureWinner_cons_skip rest (Or.inr hu0)
            · by_cases hus : missionId u = missionId s
              · have hukept : u = kept := by
                  have h1 := h.1 u hu hu0
                  rw [hus, hlk] at h1
                  injection h1 with h2
                  exact h2.symm
                rw [hukept]
                rw [futureWinner_id (s :: rest) hkk, futureWinner_id rest hkk]
                have hcond : missionId s = missionId kept := hkid.symm
                rw [List.filter_cons, if_pos (by simpa using hcond)]
                rw [winner_cons, if_neg hsc]
              · exact futureWinner_cons_skip rest (Or.inl (fun hc => hus hc.symm))
          rw [hmap]

theorem dedupeSpec_eq_self (l : List Source) (h : IdOk l) : dedupeSpec l = l := by
  induction l with
  | nil => rw [dedupeSpec_nil]
  | cons s rest ih =>
    rcases List.pairwise_cons.mp h with ⟨hs, hrest⟩
    by_cases hk : missionId s = ""
    · rw [dedupeSpec_cons_noid _ _ hk, ih hrest]
    · have hfe : rest.filter (fun t => decide (missionId t = missionId s)) = [] := by
        apply List.filter_eq_nil_iff.mpr
        intro a ha
        rcases hs a ha with h1 | h1 | h1
        · exact absurd h1 hk
        · simpa using fun hc => hk (hc.symm.trans h1)
        · simpa using fun hc => h1 hc.symm
      have hfr : rest.filter (fun t => decide (missionId t ≠ missionId s)) = rest := by
        apply List.filter_eq_self.mpr
        intro a ha
        rcases hs a ha with h1 | h1 | h1
        · exact absurd h1 hk
        · simpa using fun hc => hk (hc.symm.trans h1)
        · simpa using fun hc => h1 hc.symm
      rw [dedupeSpec_cons_id _ _ hk, hfe, hfr, ih hrest]
      rfl

theorem dedupeSpec_length_le (l : List Source) : (dedupeSpec l).length ≤ l.length := by
  have key : ∀ (n : Nat) (l : List Source), l.length ≤ n → (dedupeSpec l).length ≤ l.length := by
    intro n
    induction n with
    | zero =>
      intro l hl
      have : l = [] := List.length_eq_zero.mp (Nat.le_zero.mp hl)
      subst this
      rw [dedupeSpec_nil]
    | succ n ih =>
      intro l hl
      cases l with
      | nil => rw [dedupeSpec_nil]
      | cons s rest =>
        by_cases hk : missionId s = ""
        · rw [dedupeSpec_cons_noid _ _ hk]
          have := ih rest (by simpa [Nat.succ_le_succ_iff] using hl)
          simpa using this
        · rw [dedupeSpec_cons_id _ _ hk]
          have hfl : (rest.filter (fun t => decide (missionId t ≠ missionId s))).length
              ≤ rest.length := List.length_filter_le _ _
          have := ih (rest.filter (fun t => decide (missionId t ≠ missionId s)))
            (by simp only [List.length_cons] at hl; omega)
          simp only [List.length_cons]
          omega
  exact key l.length l (Nat.le_refl _)

theorem dedupePass_eq_spec (sources : List Source) (h : sources.length ≤ 20) :
    dedupePass sources = dedupeSpec sources := by
  unfold dedupePass
  rw [dedupeLoop_eq_NB sources [] [] (by simpa using h)]
  rw [dedupeNB_eq_spec sources [] [] seenInv_nil List.Pairwise.nil]
  have hfl : sources.filter (freshKey []) = sources := by
    apply List.filter_eq_self.mpr
    intro a _
    simp [freshKey, lookupMission]
  rw [hfl]
  simp

theorem dedupePass_idok (sources : List Source) : IdOk (dedupePass sources) :=
  dedupeLoop_idok sources [] [] seenInv_nil List.Pairwise.nil

theorem dedupePass_length_le (sources : List Source) : (dedupePass sources).length ≤ 20 :=
  dedupeLoop_len sources [] [] (by simp)

theorem rank_and_dedupe_idem_helper (sources : List Source) :
    rank_and_dedupe (rank_and_dedupe sources) = rank_and_dedupe sources := by
  have hD : IdOk (dedupePass sources) := dedupePass_idok sources
  have hlenD : (dedupePass sources).length ≤ 20 := dedupePass_length_le sources
  have hperm := sortByScoreDesc_perm (dedupePass sources)
  have hR : IdOk (rank_and_dedupe sources) :=
    (hperm.pairwise_iff (fun h => pdiff_symm h)).mpr hD
  have hlenR : (rank_and_dedupe sources).length ≤ 20 := by
    unfold rank_and_dedupe
    rw [sortByScoreDesc_length]
    exact hlenD
  show sortByScoreDesc (dedupePass (rank_and_dedupe sources)) = rank_and_dedupe sources
  rw [dedupePass_eq_spec _ hlenR, dedupeSpec_eq_self _ hR]
  exact sortByScoreDesc_eq_of_sorted _ (sortByScoreDesc_sorted (dedupePass sources))

theorem rank_and_dedupe_eq_spec_of_le (sources : List Source) (h : sources.length ≤ 20) :
    rank_and_dedupe sources = rank_and_dedupe_spec sources 20 := by
  unfold rank_and_dedupe rank_and_dedupe_spec
  rw [dedupePass_eq_spec sources h]
  have hlen : (sortByScoreDesc (dedupeSpec sources)).length ≤ 20 := by
    rw [sortByScoreDesc_length]
    exact le_trans (dedupeSpec_length_le sources) h
  rw [List.take_of_length_le hlen]

theorem runAllow_within (c : CallerClass) (ts : List Nat) :
    ∀ (t0 k : Nat), k + ts.length ≤ ceiling c →
      (∀ t ∈ ts, t0 ≤ t ∧ t - t0 ≤ 60) →
      runAllow c ts ⟨t0, k⟩
        = (ts.map (fun _ => ⟨true, none⟩), ⟨t0, k + ts.length⟩) := by
  induction ts with
  | nil =>
    intro t0 k _ _
    simp [runAllow]
  | cons t ts ih =>
    intro t0 k hcount hts
    obtain ⟨ht0, htw⟩ := hts t (List.mem_cons_self t ts)
    have hnores : ¬ 60 < t - t0 := by omega
    have hcap : ¬ ceiling c ≤ k := by
      simp only [List.length_cons] at hcount
      omega
    simp only [runAllow, allow]
    rw [if_neg hnores]
    simp only []
    rw [if_neg hcap]
    have hrec := ih t0 (k + 1)
      (by simp only [List.length_cons] at hcount; omega)
      (fun x hx => hts x (List.mem_cons_of_mem t hx))
    simp only [] at hrec
    rw [hrec]
    simp only [List.map_cons, List.length_cons]
    have hcc : k + 1 + ts.length = k + (ts.length + 1) := by omega
    rw [hcc]

/-- A retrieval source carrying just a mission identifier and a score, for
concrete evaluations. -/
def mkSrc (m : String) (sc : Rat) : Source :=
  { metadata := { title := none, url := none, mission_id := some m }, score := some sc,
    text := none }

/-- Twenty-one sources with ascending scores where the last one repeats the
first mission identifier with the highest score of its group: the hardcoded
stop of the deduplication loop at 20 kept sources never examines it. -/
def ex21 : List Source :=
  [mkSrc "m1" 1, mkSrc "m2" 2, mkSrc "m3" 3, mkSrc "m4" 4, mkSrc "m5" 5,
   mkSrc "m6" 6, mkSrc "m7" 7, mkSrc "m8" 8, mkSrc "m9" 9, mkSrc "m10" 10,
   mkSrc "m11" 11, mkSrc "m12" 12, mkSrc "m13" 13, mkSrc "m14" 14, mkSrc "m15" 15,
   mkSrc "m16" 16, mkSrc "m17" 17, mkSrc "m18" 18, mkSrc "m19" 19, mkSrc "m20" 20,
   mkSrc "m1" 100]

/-- The two-source example of the specification: one mission identifier,
scores 0.4 and 0.9. -/
def exDup : List Source :=
  [mkSrc "m1" (mkRat 4 10), mkSrc "m1" (mkRat 9 10)]

/-- C1: for every caller class with its ceiling C (10 for guests, 30 for
registered) and window length 60, C consecutive allow calls within one
window starting at t0 all succeed, leaving the counter at C with the window
start unchanged; a further call within the window is rejected with the
remaining cooldown 60 - (now - window_start) reported; a call past the
window succeeds with the counter reset to 1. The rate limiter is modelled
from the spec (section 4.2), no such component being present under src. -/
theorem claim_C1_rate_window (c : CallerClass) (t0 : Nat) (ts : List Nat)
    (hlen : ts.length = ceiling c)
    (hin : ∀ t ∈ ts, t0 ≤ t ∧ t - t0 ≤ 60) :
    (∀ o ∈ (runAllow c ts ⟨t0, 0⟩).1, o.allowed = true)
    ∧ (runAllow c ts ⟨t0, 0⟩).2 = ⟨t0, ceiling c⟩
    ∧ (∀ t, t0 ≤ t → t - t0 ≤ 60 →
        (allow c t (runAllow c ts ⟨t0, 0⟩).2).1 = ⟨false, some (60 - (t - t0))⟩)
    ∧ (∀ t, 60 < t - t0 →
        (allow c t (runAllow c ts ⟨t0, 0⟩).2).1.allowed = true
        ∧ (allow c t (runAllow c ts ⟨t0, 0⟩).2).2.count = 1) := by
  have hrun := runAllow_within c ts t0 0 (by omega) hin
  rw [hrun]
  refine ⟨?_, ?_, ?_, ?_⟩
  · intro o ho
    rcases List.mem_map.mp ho with ⟨x, _, rfl⟩
    rfl
  · simp [hlen]
  · intro t h1 h2
    have hnores : ¬ 60 < t - t0 := by omega
    simp only [allow]
    rw [if_neg hnores]
    simp only []
    rw [if_pos (show ceiling c ≤ 0 + ts.length by omega)]
  · intro t hreset
    have hpos : ¬ ceiling c ≤ 0 := by cases c <;> simp [ceiling]
    simp only [allow]
    rw [if_pos hreset]
    simp only []
    rw [if_neg hpos]
    exact ⟨rfl, rfl⟩

/-- Witness for C1 at the guest class: ten calls at time 0 from a fresh
window leave the counter at 10, an eleventh call at time 30 is rejected
with cooldown 30, and a call at time 100 is allowed with the counter back
at 1. -/
theorem claim_C1_witness :
    (runAllow .guest (List.replicate 10 0) ⟨0, 0⟩).2 = ⟨0, 10⟩
    ∧ (allow .guest 30 (runAllow .guest (List.replicate 10 0) ⟨0, 0⟩).2).1
        = ⟨false, some 30⟩
    ∧ (allow .guest 100 (runAllow .guest (List.replicate 10 0) ⟨0, 0⟩).2).1.allowed
        = true := by
  have h := claim_C1_rate_window .guest 0 (List.replicate 10 0) (by decide)
    (by intro t ht; rw [List.eq_of_mem_replicate ht]; exact ⟨Nat.le_refl 0, by decide⟩)
  refine ⟨h.2.1, ?_, (h.2.2.2 100 (by decide)).1⟩
  have h30 := h.2.2.1 30 (by decide) (by decide)
  simpa using h30

/-- C2: corrected. The orchestrator has no handler around the message save:
when the caller is logged in and persisting the user turn raises a storage
error, the chat turn propagates that error, nothing is displayed and no
assistant reply is produced. This refutes the claim that a storage failure
is caught and cannot prevent the reply from being shown. -/
theorem claim_C2_save_failure_propagates
    (save : String → String → String → Option (List Source) → Option Nat → Except String Unit)
    (engine : String → Except String QueryResult) (now : String) (st : ChatState)
    (q e : String) (uid : Nat)
    (hu : st.current_user = some uid)
    (hs : save st.session_id "user" q none (some uid) = .error e) :
    chatTurn save engine now st q = ([], .error e) := by
  simp [chatTurn, hu, hs]

/-- Counterexample for C2 as stated: with a storage layer that always fails
and an engine that would answer, the turn ends in the storage error and the
reply is never returned or shown (the displayed list stays empty). -/
theorem claim_C2_counterexample :
    chatTurn (fun _ _ _ _ _ => .error "db down")
      (fun _ => .ok { response := "hello", sources := [], response_time := 1 })
      "t" { messages := [], query_count := 0, session_id := "sess",
            current_user := some 1, show_sources := true } "hi"
      = ([], .error "db down") := rfl

/-- Witness for the corrected C2 at a concrete state and failing store. -/
theorem claim_C2_witness :
    chatTurn (fun _ _ _ _ _ => .error "disk full") (fun _ => .error "down") "t2"
      { messages := [], query_count := 3, session_id := "s2",
        current_user := some 7, show_sources := false } "query"
      = ([], .error "disk full") :=
  claim_C2_save_failure_propagates _ _ "t2" _ "query" "disk full" 7 rfl rfl

/-- C3: corrected. Signup validation accepts a password exactly when it has
at least 8 characters, an uppercase letter, a lowercase letter and a digit;
but on rejection it reports only the first violated rule in that order, not
every violated rule. -/
theorem claim_C3_password_policy (p : String) :
    ((validate_password p).1 = true
      ↔ (8 ≤ p.length ∧ p.data.any Char.isUpper = true ∧ p.data.any Char.isLower = true
          ∧ p.data.any Char.isDigit = true))
    ∧ (p.length < 8 →
        (validate_password p).2 = "Password must be at least 8 characters long")
    ∧ (8 ≤ p.length → p.data.any Char.isUpper = false →
        (validate_password p).2 = "Password must contain at least one uppercase letter")
    ∧ (8 ≤ p.length → p.data.any Char.isUpper = true → p.data.any Char.isLower = false →
        (validate_password p).2 = "Password must contain at least one lowercase letter")
    ∧ (8 ≤ p.length → p.data.any Char.isUpper = true → p.data.any Char.isLower = true →
        p.data.any Char.isDigit = false →
        (validate_password p).2 = "Password must contain at least one number") := by
  refine ⟨?_, ?_, ?_, ?_, ?_⟩
  · unfold validate_password
    by_cases h1 : p.length < 8
    · simp [h1]
    · by_cases h2 : p.data.any Char.isUpper
      · by_cases h3 : p.data.any Char.isLower
        · by_cases h4 : p.data.any Char.isDigit
          · simp [h1, h2, h3, h4]
            omega
          · simp [h1, h2, h3, h4]
        · simp [h1, h2, h3]
      · simp [h1, h2]
  · intro hlen
    simp [validate_password, hlen]
  · intro hlen h2
    simp [validate_password, Nat.not_lt.mpr hlen, h2]
  · intro hlen h2 h3
    simp [validate_password, Nat.not_lt.mpr hlen, h2, h3]
  · intro hlen h2 h3 h4
    simp [validate_password, Nat.not_lt.mpr hlen, h2, h3, h4]

/-- Counterexample for C3 as stated: the password abc violates the length
rule, the uppercase rule and the digit rule at once, yet the validator
reports only the length message, so not every violated rule is reported. -/
theorem claim_C3_counterexample :
    (validate_password "abc").1 = false
    ∧ "abc".data.any Char.isUpper = false
    ∧ "abc".data.any Char.isDigit = false
    ∧ (validate_password "abc").2 = "Password must be at least 8 characters long"
    ∧ (validate_password "abc").2 ≠ "Password must contain at least one uppercase letter" := by
  decide

/-- Witness for the corrected C3: a short password gets the length message,
and a compliant password is accepted. -/
theorem claim_C3_witness :
    (validate_password "abc").2 = "Password must be at least 8 characters long"
    ∧ (validate_password "Abcdefg1").1 = true :=
  ⟨(claim_C3_password_policy "abc").2.1 (by decide),
   (claim_C3_password_policy "Abcdefg1").1.mpr (by decide)⟩

/-- C4: corrected. The output of rank_and_dedupe never exceeds 20 entries,
the limit being the hardcoded stop of the deduplication loop rather than a
caller-supplied max_results, and the stop runs during deduplication, before
the sort; only on inputs of at most 20 sources, where the stop cannot cut
work short, does the code agree with the spec pipeline that first completes
deduplication, then sorts stably by score descending, then truncates. -/
theorem claim_C4_truncation (sources : List Source) :
    (rank_and_dedupe sources).length ≤ 20
    ∧ (sources.length ≤ 20 →
        rank_and_dedupe sources = rank_and_dedupe_spec sources 20) := by
  constructor
  · unfold rank_and_dedupe
    rw [sortByScoreDesc_length]
    exact dedupePass_length_le sources
  · intro h
    exact rank_and_dedupe_eq_spec_of_le sources h

/-- Counterexample for C4 as stated: on 21 sources the code result differs
from deduplicate-then-sort-then-truncate with max_results 20, because the
loop stops at 20 kept sources and never examines the last, highest-scoring
one. -/
theorem claim_C4_counterexample :
    rank_and_dedupe ex21 ≠ rank_and_dedupe_spec ex21 20 := by
  decide

/-- Witness for the corrected C4 at the two-source example list. -/
theorem claim_C4_witness :
    (rank_and_dedupe exDup).length ≤ 20
    ∧ rank_and_dedupe exDup = rank_and_dedupe_spec exDup 20 :=
  ⟨(claim_C4_truncation exDup).1, (claim_C4_truncation exDup).2 (by decide)⟩

/-- C5: corrected. On every input of at most 20 sources the deduplication
pass equals its specification description: one citation per non-empty
mission identifier, carrying the first-attained maximal score of the group,
replaced in place at the first insertion position of the group, and sources
without a mission identifier never merged. Beyond 20 sources the hardcoded
stop breaks the property. -/
theorem claim_C5_dedupe_grouping (sources : List Source) (h : sources.length ≤ 20) :
    dedupePass sources = dedupeSpec sources :=
  dedupePass_eq_spec sources h

/-- Counterexample for C5 as stated: in ex21 the group of mission m1 holds
scores 1 and 100, yet the pass keeps exactly one m1 citation carrying score
1, because the stop at 20 kept sources never examines the score-100 source;
the kept citation does not carry the highest score of its group. -/
theorem claim_C5_counterexample :
    ((dedupePass ex21).filter (fun s => decide (missionId s = "m1"))).map scoreOf = [1]
    ∧ (ex21.filter (fun s => decide (missionId s = "m1"))).map scoreOf = [1, 100] := by
  decide

/-- Witness for the corrected C5 at the spec example (scores 0.4 and 0.9 on
one mission id): the pass keeps exactly the 0.9 citation. -/
theorem claim_C5_witness :
    dedupePass exDup = dedupeSpec exDup
    ∧ (dedupePass exDup).map scoreOf = [mkRat 9 10] :=
  ⟨claim_C5_dedupe_grouping exDup (by decide), by decide⟩

/-- C6: corrected. Any failure of the external engine call is caught and
never propagated: the orchestrator returns a substitute reply with empty
sources and zero response time whose text is the error prefix followed by
the failure message, and leaves the query counter unchanged; the reply is
therefore not one fixed text, it varies with the failure message. -/
theorem claim_C6_engine_failure (engine : String → Except String QueryResult)
    (q : String) (qc : Nat) (e : String) (h : engine q = .error e) :
    process_query engine qc q
      = ({ response := "Error processing query: " ++ e, sources := [],
           response_time := 0 }, qc) := by
  simp [process_query, h]

/-- Counterexample for C6 as stated: there is no single fixed reply text
substituted for every engine failure, since two different failure messages
produce two different replies. -/
theorem claim_C6_counterexample :
    ¬ ∃ r : String, ∀ e : String,
      (process_query (fun _ => Except.error e) 0 "q").1.response = r := by
  rintro ⟨r, hr⟩
  have h1 := hr "a"
  have h2 := hr "b"
  simp [process_query] at h1 h2
  have hab : "Error processing query: a" = "Error processing query: b" :=
    h1.trans h2.symm
  exact absurd hab (by decide)

/-- Witness for the corrected C6 at a concrete failing engine. -/
theorem claim_C6_witness :
    process_query (fun _ => Except.error "down") 3 "q"
      = ({ response := "Error processing query: down", sources := [],
           response_time := 0 }, 3) :=
  claim_C6_engine_failure _ "q" 3 "down" rfl

/-- C7: corrected. Authentication succeeds exactly when the first account
matching the identifier by username or email is active and the password
verifies against the hash of that account; a success returns that account
with its last-login set to the call time and commits the same update to the
stored row. The original claim quantified over every matching account: it
fails when the identifier matches the username of one account and the email
of another. -/
theorem claim_C7_authenticate (checkpw : String → String → Bool) (db : List UserRec)
    (ident pw : String) (now : Nat) :
    ((authenticate_user checkpw db ident pw now).1.isSome = true
      ↔ ∃ u, db.find? (fun v => decide (v.username = ident)
              || decide (v.email = ident)) = some u
          ∧ u.is_active = true ∧ checkpw pw u.password_hash = true)
    ∧ (∀ u, (authenticate_user checkpw db ident pw now).1 = some u →
        u.last_login = some now
        ∧ (u.username = ident ∨ u.email = ident)
        ∧ u.is_active = true ∧ checkpw pw u.password_hash = true
        ∧ (authenticate_user checkpw db ident pw now).2
            = updFirst (fun v => decide (v.username = ident) || decide (v.email = ident))
                (fun v => { v with last_login := some now }) db) := by
  unfold authenticate_user
  cases hf : db.find? (fun v => decide (v.username = ident) || decide (v.email = ident)) with
  | none =>
    refine ⟨?_, ?_⟩
    · simp
    · intro u hu
      simp at hu
  | some w =>
    have hw := List.find?_some hf
    have hwid : w.username = ident ∨ w.email = ident := by
      simpa [Bool.or_eq_true, decide_eq_true_eq] using hw
    dsimp only []
    by_cases ha : w.is_active
    · by_cases hc : checkpw pw w.password_hash
      · rw [if_pos ha, if_pos hc]
        refine ⟨?_, ?_⟩
        · simp only [Option.isSome_some, true_iff]
          exact ⟨w, rfl, ha, hc⟩
        · intro u hu
          simp only [Option.some_inj] at hu
          rw [← hu]
          refine ⟨rfl, ?_, ?_, ?_, rfl⟩
          · simpa using hwid
          · simpa using ha
          · simpa using hc
      · rw [if_pos ha, if_neg hc]
        refine ⟨?_, ?_⟩
        · refine ⟨fun h0 => absurd h0 (by simp), ?_⟩
          rintro ⟨u, hu, _, huc⟩
          simp only [Option.some_inj] at hu
          rw [← hu] at huc
          exact absurd huc hc
        · intro u hu
          simp at hu
    · rw [if_neg ha]
      refine ⟨?_, ?_⟩
      · refine ⟨fun h0 => absurd h0 (by simp), ?_⟩
        rintro ⟨u, hu, hua, _⟩
        simp only [Option.some_inj] at hu
        rw [← hu] at hua
        exact absurd hua ha
      · intro u hu
        simp at hu

/-- Concrete verifier standing in for bcrypt in closed evaluations: a hash
verifies a password exactly when it is the letter H followed by it. -/
def checkpw0 (pw stored : String) : Bool :=
  decide (stored = "H" ++ pw)

/-- Inactive account whose username collides with the email of an active
account. -/
def userA : UserRec :=
  { id := 1, username := "u@e.com", email := "a@a.com", password_hash := "Hx",
    last_login := none, is_active := false }

/-- Active account reachable by email, with a verifying password. -/
def userB : UserRec :=
  { id := 2, username := "bob", email := "u@e.com", password_hash := "Hpw",
    last_login := none, is_active := true }

/-- Counterexample for C7 as stated: the identifier equals the email of the
active account userB and the password verifies against its hash, yet
authentication fails, because the inactive account userA matches first by
username and only the first match is examined. -/
theorem claim_C7_counterexample :
    (authenticate_user checkpw0 [userA, userB] "u@e.com" "pw" 5).1 = none
    ∧ userB.email = "u@e.com"
    ∧ userB.is_active = true
    ∧ checkpw0 "pw" userB.password_hash = true := by
  decide

/-- Witness for the corrected C7: with a single matching active account the
login succeeds and the returned view carries the new last-login. -/
theorem claim_C7_witness :
    (authenticate_user checkpw0 [userB] "bob" "pw" 7).1.isSome = true
    ∧ ∀ u, (authenticate_user checkpw0 [userB] "bob" "pw" 7).1 = some u →
        u.last_login = some 7 :=
  ⟨(claim_C7_authenticate checkpw0 [userB] "bob" "pw" 7).1.mpr
      ⟨userB, by decide, by decide, by decide⟩,
   fun u hu => ((claim_C7_authenticate checkpw0 [userB] "bob" "pw" 7).2 u hu).1⟩

/-- C8: applying the Source Ranker twice equals applying it once, on every
input list: the second deduplication pass leaves the once-deduplicated list
unchanged (each mission identifier now occurs once and the kept list is
within the stop limit), and stably re-sorting a sorted list is the
identity. -/
theorem claim_C8_rank_and_dedupe_idempotent (sources : List Source) :
    rank_and_dedupe (rank_and_dedupe sources) = rank_and_dedupe sources :=
  rank_and_dedupe_idem_helper sources

/-- C9: corrected. For every nonzero supplied owner id, deletion removes
only rows of that owner within the session: every removed row belonged to
the session and the owner, rows of any other owner survive, and the
surviving rows of other owners are exactly the original ones in order. For
owner id 0 the claim fails, since Python truthiness skips the owner filter. -/
theorem claim_C9_delete_scoping (db : List ChatRec) (sid : String) (n : Int)
    (h : n ≠ 0) :
    (∀ c ∈ db, c ∈ delete_session_history db sid (some n)
        ∨ (c.session_id = sid ∧ c.user_id = some n))
    ∧ (∀ c ∈ db, c.user_id ≠ some n → c ∈ delete_session_history db sid (some n))
    ∧ (delete_session_history db sid (some n)).filter
          (fun c => !(decide (c.user_id = some n)))
        = db.filter (fun c => !(decide (c.user_id = some n))) := by
  have htru : truthyUid (some n) = true := by simp [truthyUid, h]
  unfold delete_session_history
  rw [if_pos htru]
  refine ⟨?_, ?_, ?_⟩
  · intro c hc
    by_cases hm : c.session_id = sid ∧ c.user_id = some n
    · exact Or.inr hm
    · refine Or.inl (List.mem_filter.mpr ⟨hc, ?_⟩)
      by_cases h1 : c.session_id = sid
      · by_cases h2 : c.user_id = some n
        · exact absurd ⟨h1, h2⟩ hm
        · simp [h1, h2]
      · simp [h1]
  · intro c hc hne
    exact List.mem_filter.mpr ⟨hc, by simp [hne]⟩
  · rw [List.filter_filter]
    apply List.filter_congr
    intro c _
    by_cases hcu : c.user_id = some n <;> simp [hcu]

/-- Chat row used in closed evaluations: one message of user 5. -/
def rec1 : ChatRec :=
  { id := 1, user_id := some 5, session_id := "s", message_type := "user",
    message := "m1", sources := none, created_at := 0 }

/-- Chat row used in closed evaluations: one message of user 9 in the same
session. -/
def rec2 : ChatRec :=
  { id := 2, user_id := some 9, session_id := "s", message_type := "user",
    message := "m2", sources := none, created_at := 1 }

/-- Counterexample for C9 as stated: with supplied owner id 0, the row of
user 5 under the session is removed even though its stored user id differs
from the supplied one, so deletion does not remove only rows of the
supplied owner. -/
theorem claim_C9_counterexample :
    delete_session_history [rec1] "s" (some 0) = []
    ∧ rec1.user_id ≠ some 0
    ∧ rec1.session_id = "s" := by
  decide

/-- Witness for the corrected C9: deleting session s for owner 5 keeps the
row of user 9 and removes only rows of owner 5. -/
theorem claim_C9_witness :
    rec2 ∈ delete_session_history [rec1, rec2] "s" (some 5)
    ∧ (rec1 ∈ delete_session_history [rec1, rec2] "s" (some 5)
        ∨ (rec1.session_id = "s" ∧ rec1.user_id = some 5)) :=
  ⟨(claim_C9_delete_scoping [rec1, rec2] "s" 5 (by decide)).2.1 rec2 (by simp)
      (by decide),
   (claim_C9_delete_scoping [rec1, rec2] "s" 5 (by decide)).1 rec1 (by simp)⟩

/-- C10: with owner id 0 or None the truthiness test skips the ownership
filter, and exactly the rows of the given session are deleted regardless of
their stored owner: the remaining table keeps precisely the rows of other
sessions, identically for owner id 0 and for None. -/
theorem claim_C10_zero_owner_skips_filter (db : List ChatRec) (sid : String) :
    delete_session_history db sid (some 0)
      = db.filter (fun c => !(decide (c.session_id = sid)))
    ∧ delete_session_history db sid none
      = db.filter (fun c => !(decide (c.session_id = sid)))
    ∧ delete_session_history db sid (some 0) = delete_session_history db sid none := by
  have h0 : truthyUid (some 0) = false := by decide
  have hn : truthyUid none = false := rfl
  unfold delete_session_history
  rw [if_neg (by simp [h0]), if_neg (by simp [hn])]
  exact ⟨rfl, rfl, rfl⟩

end MissionChat
